import Mathlib

/-!
Verification development for the claude-cache-system repository.

This file gives a shallow embedding of the security-enhanced cache engine
(`claude_cache_security_enhanced.py`) and of the daemon command handlers
that the claims refer to (`claude_cache_security_daemon.py`), and proves
or refutes the frozen claims about it.

External primitives that the Python code calls out to (the `re` regex
engine, `hashlib` digests, `gzip`, `mimetypes`, `Path.resolve`) are kept
abstract: the embedding is parameterised over them, so every theorem holds
for every behaviour of those primitives, and witnesses instantiate them
with concrete computable functions.
-/

namespace ClaudeCache

/-! ## Path helpers (modelling `pathlib.PurePath.name` / `.suffix`) -/

/-- Split a character list at `/` separators (kernel-reducible version of
`str.split('/')`). -/
def splitSlash : List Char → List (List Char)
  | [] => [[]]
  | c :: rest =>
    let r := splitSlash rest
    if c = '/' then [] :: r
    else
      match r with
      | [] => [[c]]
      | h :: t => (c :: h) :: t

/-- ASCII lowercasing, modelling `str.lower()` on the paths and extensions
this program handles. -/
def strLower (s : String) : String :=
  String.mk (s.toList.map Char.toLower)

/-- `Path(p).name`: the final path component. -/
def pathName (p : String) : String :=
  String.mk ((splitSlash p.toList).getLastD [])

/-- `Path(p).suffix`: the extension of the final component, including the
dot; empty when the name has no dot, starts with its only dot, or ends
with a dot (pathlib: last `.` at index `i` with `0 < i < len(name)-1`). -/
def pathSuffix (p : String) : String :=
  let name := (pathName p).toList
  let dots := (List.range name.length).filter (fun i => name.getD i ' ' = '.')
  match dots.getLast? with
  | some i => if 0 < i ∧ i + 1 < name.length then String.mk (name.drop i) else ""
  | none => ""

/-- `path.split('/')` components, empty pieces dropped: used to model
`PurePath.parts` for the containment check of `Path.relative_to`. -/
def pathParts (p : String) : List String :=
  ((splitSlash p.toList).filter (fun s => s ≠ [])).map String.mk

/-! ## FileType (class FileType(Enum)) -/

inductive FileType where
  | source_code
  | config
  | binary
  | documentation
  | data
  | security_sensitive
deriving DecidableEq, Repr

/-! ## File classification (`_determine_file_type`) -/

def source_extensions : List String :=
  [".py", ".js", ".ts", ".java", ".cs", ".go", ".php", ".rb", ".c", ".cpp", ".rs"]

def config_extensions : List String :=
  [".yml", ".yaml", ".json", ".xml", ".conf", ".ini", ".toml"]

def doc_extensions : List String :=
  [".md", ".txt", ".rst", ".adoc"]

def special_config_names : List String :=
  ["Dockerfile", "Makefile", ".env", ".gitignore"]

/-- `ClaudeCacheSecurityEnhanced._determine_file_type`. -/
def determine_file_type (path : String) : FileType :=
  let ext := strLower (pathSuffix path)
  if ext ∈ source_extensions then FileType.source_code
  else if ext ∈ config_extensions then FileType.config
  else if ext ∈ doc_extensions then FileType.documentation
  else if pathName path ∈ special_config_names then FileType.config
  else FileType.data

/-! ## Security patterns (`SecurityAnalyzer._load_security_patterns`) -/

structure SecurityPattern where
  pattern : String
  severity : String
  description : String
  file_types : List String
deriving DecidableEq, Repr

def sp_hardcoded_password : SecurityPattern :=
  { pattern := "(?:password|passwd|pwd)\\s*=\\s*[\"\\\x27]([^\"\\\x27]+)[\"\\\x27]"
    severity := "HIGH", description := "Hardcoded password"
    file_types := [".py", ".js", ".java", ".cs", ".go"] }

def sp_hardcoded_api_key : SecurityPattern :=
  { pattern := "(?:api[_-]?key|apikey)\\s*=\\s*[\"\\\x27]([^\"\\\x27]+)[\"\\\x27]"
    severity := "HIGH", description := "Hardcoded API key"
    file_types := [".py", ".js", ".java", ".cs", ".go", ".yml", ".yaml"] }

def sp_hardcoded_secret : SecurityPattern :=
  { pattern := "(?:secret|token)\\s*=\\s*[\"\\\x27]([^\"\\\x27]+)[\"\\\x27]"
    severity := "HIGH", description := "Hardcoded secret/token"
    file_types := [".py", ".js", ".java", ".cs", ".go"] }

def sp_sql_injection : SecurityPattern :=
  { pattern := "(?:execute|query)\\s*\\(\\s*[\"\\\x27].*?\\%s.*?[\"\\\x27].*?\\%.*?\\)"
    severity := "HIGH", description := "Potential SQL injection"
    file_types := [".py", ".php", ".java"] }

def sp_sql_injection_fstring : SecurityPattern :=
  { pattern := "(?:execute|query)\\s*\\(\\s*f[\"\\\x27].*?\\\x7b.*?\\\x7d.*?[\"\\\x27]"
    severity := "HIGH", description := "SQL injection via f-string"
    file_types := [".py"] }

def sp_command_injection : SecurityPattern :=
  { pattern := "os\\.system\\s*\\([^)]*\\+[^)]*\\)"
    severity := "CRITICAL", description := "Command injection risk"
    file_types := [".py"] }

def sp_command_injection_subprocess : SecurityPattern :=
  { pattern := "subprocess\\.(?:call|run|Popen)\\s*\\([^,\\)]*\\+[^,\\)]*"
    severity := "HIGH", description := "Command injection via subprocess"
    file_types := [".py"] }

def sp_code_injection_eval : SecurityPattern :=
  { pattern := "eval\\s*\\([^)]*(?:request|input|argv)"
    severity := "CRITICAL", description := "Code injection via eval"
    file_types := [".py", ".js", ".php"] }

def sp_path_traversal : SecurityPattern :=
  { pattern := "(?:open|file)\\s*\\([^)]*\\.\\.[/\\\\]"
    severity := "MEDIUM", description := "Path traversal vulnerability"
    file_types := [".py", ".js", ".java"] }

def sp_weak_hash : SecurityPattern :=
  { pattern := "(?:MD5|SHA1)\\s*\\("
    severity := "MEDIUM", description := "Weak cryptographic hash"
    file_types := [".py", ".js", ".java", ".cs"] }

def sp_insecure_random : SecurityPattern :=
  { pattern := "random\\.random\\s*\\(\\)"
    severity := "LOW", description := "Insecure random for security"
    file_types := [".py"] }

def sp_permissive_cors : SecurityPattern :=
  { pattern := "Access-Control-Allow-Origin.*?\\*"
    severity := "MEDIUM", description := "Overly permissive CORS"
    file_types := [".py", ".js", ".java"] }

def sp_unsafe_pickle : SecurityPattern :=
  { pattern := "pickle\\.loads?\\s*\\("
    severity := "HIGH", description := "Unsafe deserialization"
    file_types := [".py"] }

def sp_unsafe_yaml : SecurityPattern :=
  { pattern := "yaml\\.load\\s*\\([^,)]*\\)"
    severity := "HIGH", description := "Unsafe YAML loading"
    file_types := [".py"] }

/-- The pattern table, in declaration order. -/
def securityPatterns : List SecurityPattern :=
  [sp_hardcoded_password, sp_hardcoded_api_key, sp_hardcoded_secret,
   sp_sql_injection, sp_sql_injection_fstring,
   sp_command_injection, sp_command_injection_subprocess, sp_code_injection_eval,
   sp_path_traversal,
   sp_weak_hash, sp_insecure_random,
   sp_permissive_cors,
   sp_unsafe_pickle, sp_unsafe_yaml]

/-! ## Pattern engine (`SecurityAnalyzer.analyze_content`)

The regex engine is external (Python `re`): the embedding is parameterised
over the number of `findall` matches each pattern produces on a content
string. -/

/-- Number of matches `pattern.regex.findall(content)` returns. -/
def Matcher : Type := SecurityPattern → String → Nat

/-- One vulnerability dict as built in `analyze_content`. -/
structure Finding where
  type : String
  severity : String
  pattern : String
  matchCount : Nat  -- dict key "matches" in the source
  file : String
deriving DecidableEq, Repr

/-- Score deduction per severity (CRITICAL 30, HIGH 20, MEDIUM 10, else 5). -/
def severityPenalty (s : String) : Int :=
  if s = "CRITICAL" then 30
  else if s = "HIGH" then 20
  else if s = "MEDIUM" then 10
  else 5

/-- Character-based string truncation (`s[:n]`). -/
def strTake (s : String) (n : Nat) : String :=
  String.mk (s.toList.take n)

/-- The vulnerability dict appended for a matched pattern. -/
def mkFinding (m : Matcher) (content file_path : String) (p : SecurityPattern) : Finding :=
  { type := p.description
    severity := p.severity
    pattern := strTake p.pattern 50 ++ "..."
    matchCount := m p content
    file := file_path }

/-- Body of the `for pattern in self.patterns` loop of `analyze_content`. -/
def analyzeStep (m : Matcher) (content file_path : String)
    (acc : Int × List Finding) (p : SecurityPattern) : Int × List Finding :=
  if strLower (pathSuffix file_path) ∈ p.file_types then
    if 0 < m p content then
      (acc.1 - severityPenalty p.severity, acc.2 ++ [mkFinding m content file_path p])
    else acc
  else acc

/-- `SecurityAnalyzer.analyze_content`: returns `(max 0 score, findings)`. -/
def analyze_content (m : Matcher) (content file_path : String) : Int × List Finding :=
  let r := securityPatterns.foldl (analyzeStep m content file_path) (100, [])
  (max 0 r.1, r.2)

/-- Does a pattern apply to the file and match at least once? -/
def patternMatched (m : Matcher) (content ext : String) (p : SecurityPattern) : Bool :=
  decide (ext ∈ p.file_types) && decide (0 < m p content)

/-- The sublist of patterns (in declaration order) that fire. -/
def matchedPatterns (m : Matcher) (content file_path : String) : List SecurityPattern :=
  securityPatterns.filter (patternMatched m content (strLower (pathSuffix file_path)))

/-- Total penalty of a list of patterns. -/
def penaltySum (ps : List SecurityPattern) : Int :=
  (ps.map (fun p => severityPenalty p.severity)).sum

/-! ## External primitives

Everything the engine calls out of the Python process (or into opaque
stdlib C code) is a parameter: hashes, gzip, the regex engine, utf-8
decoding, mime guessing and path canonicalisation. -/

/-- Byte strings are lists of byte values. -/
abbrev Bytes : Type := List Nat

structure ExternalFns where
  /-- `Path(p).resolve()` rendered as a string. -/
  resolve : String → String
  /-- `hashlib.md5(p.encode()).hexdigest()`. -/
  md5hex : String → String
  /-- `hashlib.sha256(b).hexdigest()`. -/
  sha256hex : Bytes → String
  /-- `gzip.compress(b, compresslevel=6)`. -/
  gzipCompress : Bytes → Bytes
  /-- `gzip.decompress(b)`. -/
  gzipDecompress : Bytes → Bytes
  /-- `len(pattern.regex.findall(content))`. -/
  findall : Matcher
  /-- `b.decode('utf-8', errors='ignore')`. -/
  decodeUtf8 : Bytes → String
  /-- `mimetypes.guess_type(p)[0]`. -/
  mimeGuess : String → Option String

/-! ## Configuration (the recognized options the claims exercise) -/

structure Config where
  max_file_size_mb : Nat := 50
  compression_threshold_kb : Nat := 100
  security_analysis : Bool := true
deriving DecidableEq, Repr

/-- On-disk view of one file: its bytes and `st_mtime`
(`st_size` is the byte count). -/
structure FileInfo where
  content : Bytes
  mtime : Int
deriving DecidableEq

/-! ## Data model -/

/-- `CacheEntry` dataclass (the `metadata` dict is rendered as its two
content-dependent values; its `encoding` key is the constant `"utf-8"`). -/
structure CacheEntry where
  path : String
  checksum : String
  size : Nat
  modified_time : Int
  cached_time : Int
  compressed : Bool
  access_count : Nat
  last_accessed : Int
  content_path : String
  file_type : FileType
  git_sha : Option String
  security_score : Int
  vulnerabilities : List Finding
  metadata_mime : Option String
  metadata_lines : Int
  partition_key : Option String
deriving DecidableEq, Repr

/-- One row of a partition's `partition_cache` table. -/
structure PartitionRow where
  content : Bytes
  compressed : Bool
  size : Nat
  checksum : String
deriving DecidableEq

/-- One row of the `vulnerabilities` table. -/
structure VulnRow where
  file_path : String
  vulnerability_type : String
  severity : String
  line_number : Int
  detected_time : Int
  resolved : Bool
deriving DecidableEq, Repr

/-- One row of the `performance_metrics` table. -/
structure MetricsRow where
  timestamp : Int
  cache_hits : Nat
  cache_misses : Nat
  avg_response_time_ms : Int
  memory_usage_mb : ℚ
  partition_balance : List (String × Nat)
deriving DecidableEq

/-- The engine's mutable state: the index store tables, the partition
stores, and the two in-memory tiers.  The `stats` defaultdict is rendered
by its four used keys; `cache_misses` keeps its presence bit because
`stats.get('cache_misses', default)` distinguishes a missing key from a
zero (no code path ever writes that key). -/
structure EngineState where
  index : List (String × CacheEntry)
  partitions : List (String × List (String × PartitionRow))
  vulns : List VulnRow
  gitCommits : List String
  metricsLog : List MetricsRow
  memoryCache : List (String × CacheEntry)
  ttlCache : List (String × CacheEntry)
  statsHits : Nat
  statsMisses : Option Nat
  statsCachedFiles : Nat
  statsErrors : Nat
deriving DecidableEq

/-! ## Keyed-table helpers (SQL rows keyed by path, and the two tiers) -/

/-- Primary-key lookup. -/
def alookup {α : Type} : List (String × α) → String → Option α
  | [], _ => none
  | (k, v) :: t, key => if k = key then some v else alookup t key

/-- `INSERT OR REPLACE` keyed by `k` (most-recent-first representation,
shared with the two in-memory tiers). -/
def aupsert {α : Type} (l : List (String × α)) (k : String) (v : α) : List (String × α) :=
  (k, v) :: l.filter (fun q => q.1 ≠ k)

/-- `cachetools` bounded insertion: replace an existing key, else evict the
least-recent entry when at capacity, then insert as most recent. -/
def lruInsert (maxsize : Nat) (cache : List (String × CacheEntry)) (k : String)
    (e : CacheEntry) : List (String × CacheEntry) :=
  let without := cache.filter (fun q => q.1 ≠ k)
  let trimmed := if maxsize ≤ without.length then without.dropLast else without
  (k, e) :: trimmed

/-- `LRUCache.__getitem__` recency update: a hit moves the key to most
recent. -/
def lruGetReorder (cache : List (String × CacheEntry)) (k : String) :
    List (String × CacheEntry) :=
  match alookup cache k with
  | none => cache
  | some e => (k, e) :: cache.filter (fun q => q.1 ≠ k)

/-! ## Partition router (`_get_partition_for_path`) -/

/-- Value of one hex digit (`int` accepts both cases; a digest's hexdigest
only ever contains `0-9a-f`). -/
def hexDigitVal (c : Char) : Nat :=
  if 48 ≤ c.toNat ∧ c.toNat ≤ 57 then c.toNat - 48
  else if 97 ≤ c.toNat ∧ c.toNat ≤ 102 then c.toNat - 87
  else if 65 ≤ c.toNat ∧ c.toNat ≤ 70 then c.toNat - 55
  else 0

/-- `int(s, 16)` on a hex string. -/
def hexStrVal (s : String) : Nat :=
  s.toList.foldl (fun a c => a * 16 + hexDigitVal c) 0

def partitionName (i : Nat) : String :=
  "partition_" ++ toString i

/-- `ClaudeCacheSecurityEnhanced._get_partition_for_path`:
`int(md5(path).hexdigest()[:2], 16) % len(self.partitions)`. -/
def get_partition_for_path (md5hex : String → String) (numPartitions : Nat)
    (file_path : String) : String :=
  let path_hash := md5hex file_path
  let partition_index := hexStrVal (strTake path_hash 2) % numPartitions
  partitionName partition_index

/-! ## Path validation (`_validate_path`) -/

/-- `resolved_path.relative_to(allowed_path)` succeeds exactly when the
allowed path's components are a prefix of the resolved path's. -/
def validate_path (resolve : String → String) (allowed_dirs : List String)
    (file_path : String) : Bool :=
  let resolved := pathParts (resolve file_path)
  allowed_dirs.any (fun d => (pathParts (resolve d)).isPrefixOf resolved)

/-! ## Engine operations -/

/-- A SQL `UPDATE ... WHERE path = ?` on a keyed table. -/
def amodify (l : List (String × CacheEntry)) (k : String) (f : CacheEntry → CacheEntry) :
    List (String × CacheEntry) :=
  l.map (fun q => if q.1 = k then (q.1, f q.2) else q)

/-- `_update_access_stats`: `UPDATE security_cache SET access_count =
access_count + 1, last_accessed = now WHERE path = ?`, then bumps the hit
counter. -/
def update_access_stats (now : Int) (st : EngineState) (file_path : String) : EngineState :=
  { st with
    index := amodify st.index file_path (fun e =>
      { e with access_count := e.access_count + 1, last_accessed := now })
    statsHits := st.statsHits + 1 }

/-- `_get_cache_entry`: index row for a path, reconstructed as a
`CacheEntry`. -/
def get_cache_entry (st : EngineState) (file_path : String) : Option CacheEntry :=
  alookup st.index file_path

/-- Count of newline characters, for the `lines` metadata value. -/
def countNewlines (s : String) : Int :=
  ((s.toList.filter (fun c => c = '\n')).length : Int)

/-- The condition of step 5 of the pipeline:
`self.config.get("security_analysis", True) and file_type == FileType.SOURCE_CODE`. -/
def security_analysis_applies (cfg : Config) (path : String) : Bool :=
  cfg.security_analysis && decide (determine_file_type path = FileType.source_code)

/-- Step 5 of the pipeline: the `(security_score, vulnerabilities)` pair. -/
def ingestScore (E : ExternalFns) (cfg : Config) (path : String) (fi : FileInfo) :
    Int × List Finding :=
  if security_analysis_applies cfg path then
    analyze_content E.findall (E.decodeUtf8 fi.content) path
  else (100, [])

/-- Step 8 of the pipeline: the stored bytes and the `compressed` flag. -/
def ingestStored (E : ExternalFns) (cfg : Config) (fi : FileInfo) : Bytes × Bool :=
  if cfg.compression_threshold_kb * 1024 < fi.content.length then
    (E.gzipCompress fi.content, true)
  else (fi.content, false)

/-- The `CacheEntry` constructed by `cache_file_enhanced` for a file it
ingests (`path` already resolved). -/
def ingestEntry (E : ExternalFns) (cfg : Config) (now : Int) (gs : Option String)
    (numPartitions : Nat) (path : String) (fi : FileInfo) : CacheEntry :=
  let partition_id := get_partition_for_path E.md5hex numPartitions path
  { path := path, checksum := E.sha256hex fi.content, size := fi.content.length
    modified_time := fi.mtime, cached_time := now
    compressed := (ingestStored E cfg fi).2, access_count := 1, last_accessed := now
    content_path := partition_id ++ "/" ++ E.sha256hex fi.content
    file_type := determine_file_type path, git_sha := gs
    security_score := (ingestScore E cfg path fi).1
    vulnerabilities := (ingestScore E cfg path fi).2
    metadata_mime := E.mimeGuess path
    metadata_lines :=
      if (ingestStored E cfg fi).2 = false
      then countNewlines (E.decodeUtf8 (ingestStored E cfg fi).1) else -1
    partition_key := some partition_id }

/-- The `partition_cache` row written by `_store_in_partition`. -/
def ingestRow (E : ExternalFns) (cfg : Config) (fi : FileInfo) : PartitionRow :=
  { content := (ingestStored E cfg fi).1, compressed := (ingestStored E cfg fi).2
    size := fi.content.length, checksum := E.sha256hex fi.content }

/-- The `vulnerabilities` rows written by `_store_vulnerabilities`
(`line_number` is `vuln.get('line_number', -1)`, always -1 since findings
carry no line number). -/
def ingestVulnRows (E : ExternalFns) (cfg : Config) (now : Int) (path : String)
    (fi : FileInfo) : List VulnRow :=
  (ingestScore E cfg path fi).2.map (fun v =>
    { file_path := path, vulnerability_type := v.type, severity := v.severity
      line_number := -1, detected_time := now, resolved := false })

/-- Lines 587–665 of `cache_file_enhanced`: the ingestion work done once
the freshness check has fallen through.  `path` is already resolved;
`git_sha` is the externally-determined `git hash_object` result (None when
no bridge is configured or the call failed).  The source calls
`_store_vulnerabilities` only when the findings list is nonempty; inserting
zero rows appends nothing, so the unguarded append has the same meaning. -/
def cache_ingest (E : ExternalFns) (cfg : Config) (fs : String → Option FileInfo)
    (now : Int) (git_sha : Option String) (st : EngineState) (path : String) :
    Option CacheEntry × EngineState :=
  match fs path with
  | none => (none, st)  -- `_read_file_efficiently` catches its own I/O errors and yields None
  | some fi =>
    if cfg.max_file_size_mb * 1024 * 1024 < fi.content.length then (none, st)
    else
      let partition_id := get_partition_for_path E.md5hex st.partitions.length path
      match alookup st.partitions partition_id with
      | none =>
        -- an unknown partition id raises a KeyError in `_get_db_connection`,
        -- caught by the outer handler of `cache_file_enhanced`
        (none, { st with statsErrors := st.statsErrors + 1 })
      | some prows =>
        let entry := ingestEntry E cfg now git_sha st.partitions.length path fi
        (some entry,
         { st with
           partitions :=
             aupsert st.partitions partition_id (aupsert prows path (ingestRow E cfg fi))
           index := aupsert st.index path entry
           memoryCache := lruInsert 1000 st.memoryCache path entry
           ttlCache := lruInsert 5000 st.ttlCache path entry
           vulns := st.vulns ++ ingestVulnRows E cfg now path fi
           statsCachedFiles := st.statsCachedFiles + 1 })

/-- `ClaudeCacheSecurityEnhanced.cache_file_enhanced`. -/
def cache_file_enhanced (E : ExternalFns) (cfg : Config) (allowed_dirs : List String)
    (fs : String → Option FileInfo) (now : Int) (git_sha : Option String)
    (st : EngineState) (file_path : String) (force : Bool) :
    Option CacheEntry × EngineState :=
  if validate_path E.resolve allowed_dirs file_path = false then (none, st)
  else
    let path := E.resolve file_path
    match (if force then none else alookup st.index path) with
    | some cached_entry =>
      match fs path with
      | none =>
        -- `path.stat()` in the freshness check raises; the outer handler
        -- logs it and counts an error
        (none, { st with statsErrors := st.statsErrors + 1 })
      | some fi =>
        if fi.mtime ≤ cached_entry.modified_time then
          (some cached_entry, update_access_stats now st path)
        else cache_ingest E cfg fs now git_sha st path
    | none => cache_ingest E cfg fs now git_sha st path

/-- `_read_cached_content`: blob from the owning partition, decompressed
when its stored flag is set.  A missing partition key routes the query at
the main index store, whose schema has no `partition_cache` table; the
resulting error is caught and yields None. -/
def read_cached_content (E : ExternalFns) (st : EngineState) (entry : CacheEntry) :
    Option Bytes :=
  match entry.partition_key with
  | none => none
  | some pid =>
    match alookup st.partitions pid with
    | none => none
    | some prows =>
      match alookup prows entry.path with
      | none => none
      | some row => some (if row.compressed then E.gzipDecompress row.content else row.content)

/-- `get_cached_content`: hot tier, then warm tier (with promotion into
hot), then the persistent index. -/
def get_cached_content (E : ExternalFns) (st : EngineState) (file_path : String) :
    Option Bytes × EngineState :=
  match alookup st.memoryCache file_path with
  | some entry =>
    (read_cached_content E st entry, { st with memoryCache := lruGetReorder st.memoryCache file_path })
  | none =>
    match alookup st.ttlCache file_path with
    | some entry =>
      let st' := { st with memoryCache := lruInsert 1000 st.memoryCache file_path entry }
      (read_cached_content E st' entry, st')
    | none =>
      match get_cache_entry st file_path with
      | some entry => (read_cached_content E st entry, st)
      | none => (none, st)

/-- `_remove_from_cache`: no-op when the path has no index entry;
otherwise deletes the partition blob, the index row, the vulnerability
rows, and both tier entries.  The method has no try/except: when the
entry's partition key is NULL, `_get_db_connection(None)` routes the
`DELETE FROM partition_cache` at the main index store, whose schema has no
such table, and the statement raises; when it names a partition absent
from the partition dict, the dict lookup raises.  Either exception
propagates before any row is deleted, so `none` models that abort with
the state unchanged at the raise. -/
def remove_from_cache (st : EngineState) (file_path : String) : Option EngineState :=
  match alookup st.index file_path with
  | none => some st
  | some entry =>
    match entry.partition_key with
    | none => none
    | some pid =>
      match alookup st.partitions pid with
      | none => none
      | some prows =>
        let st1 := { st with
          partitions :=
            aupsert st.partitions pid (prows.filter (fun q => q.1 ≠ file_path)) }
        some { st1 with
          index := st1.index.filter (fun q => q.1 ≠ file_path)
          vulns := st1.vulns.filter (fun v => v.file_path ≠ file_path)
          memoryCache := st1.memoryCache.filter (fun q => q.1 ≠ file_path)
          ttlCache := st1.ttlCache.filter (fun q => q.1 ≠ file_path) }

/-! ## Version-control bridge (`update_from_git`) -/

/-- A parsed name-status diff line (`GitChange`; the sha and diff-line
fields are always empty in the source and are omitted). -/
structure GitChange where
  file_path : String
  change_type : String
deriving DecidableEq, Repr

/-- The body of `update_from_git`'s loop: deleted → removal path, every
other kind → forced re-ingestion.  `none` is the removal path's uncaught
exception. -/
def gitStep (E : ExternalFns) (cfg : Config) (allowed_dirs : List String)
    (fs : String → Option FileInfo) (now : Int) (git_sha : Option String)
    (s : EngineState) (c : GitChange) : Option EngineState :=
  if c.change_type = "deleted" then remove_from_cache s c.file_path
  else some (cache_file_enhanced E cfg allowed_dirs fs now git_sha s c.file_path true).2

/-- `update_from_git` applied to the change list the bridge produced.
`update_from_git` itself catches nothing, so an exception from the removal
path aborts the loop and propagates to the caller (the daemon's
`_handle_git_update` catch-all); `Except.error` carries the engine state as
it stands at that abort. -/
def update_from_git (E : ExternalFns) (cfg : Config) (allowed_dirs : List String)
    (fs : String → Option FileInfo) (now : Int) (git_sha : Option String)
    (st : EngineState) (changes : List GitChange) : Except EngineState EngineState :=
  match changes with
  | [] => Except.ok st
  | c :: rest =>
    match gitStep E cfg allowed_dirs fs now git_sha st c with
    | none => Except.error st
    | some s2 => update_from_git E cfg allowed_dirs fs now git_sha s2 rest

/-! ## Daemon clear command (`CacheSecurityDaemon._handle_clear`) -/

inductive ClearResult where
  /-- `{'status': 'error', 'error': 'Clear requires confirmation'}` -/
  | rejected
  /-- `{'status': 'success', 'message': 'Cache cleared'}` -/
  | cleared
deriving DecidableEq, Repr

def handle_clear (st : EngineState) (confirm : Bool) : ClearResult × EngineState :=
  if confirm = false then (ClearResult.rejected, st)
  else
    (ClearResult.cleared,
     { st with
       partitions := st.partitions.map (fun q => (q.1, []))
       index := [], vulns := [], gitCommits := []
       memoryCache := [], ttlCache := [] })

/-! ## Performance metrics (`get_performance_metrics`) -/

/-- The returned metrics dict (the two thread-pool introspection values
are process internals, not engine state, and are omitted). -/
structure Metrics where
  cache_hits : Nat
  cache_misses : Nat
  hit_rate_percent : ℚ
  cached_files : Nat
  total_operations : Nat
  errors : Nat
  memory_usage_mb : ℚ
  memory_cache_size : Nat
  ttl_cache_size : Nat
  partition_balance : List (String × Nat)
deriving DecidableEq

/-- `get_performance_metrics`.  Note the asymmetry of the source: the
hit-rate denominator uses `stats.get('cache_misses', 1)` while the
reported miss counter uses `stats.get('cache_misses', 0)`. -/
def get_performance_metrics (memory_rss_mb : ℚ) (now : Int) (st : EngineState) :
    Metrics × EngineState :=
  let hits := st.statsHits
  let hit_rate : ℚ := ((hits : ℚ) / ((hits : ℚ) + ((st.statsMisses.getD 1 : Nat) : ℚ))) * 100
  let partition_sizes := st.partitions.map (fun q => (q.1, q.2.length))
  let metrics : Metrics :=
    { cache_hits := hits
      cache_misses := st.statsMisses.getD 0
      hit_rate_percent := hit_rate
      cached_files := st.statsCachedFiles
      total_operations := hits + st.statsMisses.getD 0 + st.statsCachedFiles + st.statsErrors
      errors := st.statsErrors
      memory_usage_mb := memory_rss_mb
      memory_cache_size := st.memoryCache.length
      ttl_cache_size := st.ttlCache.length
      partition_balance := partition_sizes }
  let row : MetricsRow :=
    { timestamp := now, cache_hits := metrics.cache_hits
      cache_misses := metrics.cache_misses, avg_response_time_ms := 0
      memory_usage_mb := memory_rss_mb, partition_balance := partition_sizes }
  (metrics, { st with metricsLog := st.metricsLog ++ [row] })

/-! ## State predicates used for the version-control sync claim -/

/-- Every partition blob recorded for `p` is owned by `p`'s index entry:
the entry exists and its `partition_key` names that partition.  States
produced by the ingestion pipeline satisfy this (the blob and the index
row are written together with matching partition ids). -/
def ConsistentBlob (st : EngineState) (p : String) : Prop :=
  ∀ q ∈ st.partitions, alookup q.2 p ≠ none →
    (alookup st.index p).map CacheEntry.partition_key = some (some q.1)

instance (st : EngineState) (p : String) : Decidable (ConsistentBlob st p) := by
  unfold ConsistentBlob
  infer_instance

/-- `p` has no index row and no partition blob. -/
def NoIndexNoBlob (st : EngineState) (p : String) : Prop :=
  alookup st.index p = none ∧ ∀ q ∈ st.partitions, alookup q.2 p = none

/-! ## Concrete instances used by witnesses and counterexamples -/

/-- Computable stand-ins for the external primitives: identity path
resolution, the md5 digest of the empty string for every path, a
length-tagged digest, and a one-byte-header gzip pair (so that
decompress ∘ compress = id). -/
def cExt : ExternalFns :=
  { resolve := fun p => p
    md5hex := fun _ => "d41d8cd98f00b204e9800998ecf8427e"
    sha256hex := fun b => "sha" ++ toString b.length
    gzipCompress := fun b => 0 :: b
    gzipDecompress := fun b => b.drop 1
    findall := fun _ _ => 0
    decodeUtf8 := fun _ => ""
    mimeGuess := fun _ => none }

/-- A freshly initialised engine state with four partitions. -/
def cState0 : EngineState :=
  { index := []
    partitions :=
      [("partition_0", []), ("partition_1", []), ("partition_2", []), ("partition_3", [])]
    vulns := [], gitCommits := [], metricsLog := [], memoryCache := [], ttlCache := []
    statsHits := 0, statsMisses := none, statsCachedFiles := 0, statsErrors := 0 }

/-- A file system holding one two-byte file. -/
def cFs : String → Option FileInfo := fun p =>
  if p = "/tmp/a.txt" then some { content := [97, 98], mtime := 3 } else none

/-- A matcher under which only the hardcoded-password pattern fires. -/
def cMatcher : Matcher := fun p _ => if p = sp_hardcoded_password then 1 else 0

/-- An index entry as the first ingestion of `/tmp/a.txt` would record it. -/
def cEntryA : CacheEntry :=
  { path := "/tmp/a.txt", checksum := "sha2", size := 2, modified_time := 3
    cached_time := 1, compressed := false, access_count := 1, last_accessed := 1
    content_path := "partition_0/sha2", file_type := FileType.documentation
    git_sha := none, security_score := 100, vulnerabilities := []
    metadata_mime := none, metadata_lines := 0, partition_key := some "partition_0" }

/-- A state whose index already holds a fresh entry for `/tmp/a.txt`. -/
def cStateFresh : EngineState :=
  { cState0 with index := [("/tmp/a.txt", cEntryA)] }

/-- A state that has recorded exactly one cache hit and no miss. -/
def cStateHit : EngineState :=
  { cState0 with statsHits := 1 }

/-- The state after force-ingesting `/tmp/a.txt` into a fresh engine. -/
def cStateFoo : EngineState :=
  (cache_file_enhanced cExt {} ["/tmp"] cFs 1 none cState0 "/tmp/a.txt" true).2

/-- A state where `/tmp/a.txt` sits only in the warm tier, with its blob in
partition 0. -/
def cStateWarm : EngineState :=
  { cState0 with
    ttlCache := [("/tmp/a.txt", cEntryA)]
    partitions :=
      [("partition_0",
        [("/tmp/a.txt",
          { content := [97, 98], compressed := false, size := 2, checksum := "sha2" })]),
       ("partition_1", []), ("partition_2", []), ("partition_3", [])] }

/-! ## Keyed-table lemmas -/

theorem alookup_cons {α : Type} (k' : String) (v : α) (t : List (String × α)) (q : String) :
    alookup ((k', v) :: t) q = if k' = q then some v else alookup t q := rfl

theorem alookup_eq_none {α : Type} (l : List (String × α)) (k : String) :
    alookup l k = none ↔ ∀ e ∈ l, e.1 ≠ k := by
  induction l with
  | nil => simp [alookup]
  | cons a t ih =>
    rcases a with ⟨ak, av⟩
    by_cases h : ak = k <;> simp [alookup_cons, h, ih]

theorem alookup_mem {α : Type} {l : List (String × α)} {k : String} {v : α}
    (h : alookup l k = some v) : (k, v) ∈ l := by
  induction l with
  | nil => simp [alookup] at h
  | cons a t ih =>
    rcases a with ⟨ak, av⟩
    by_cases hk : ak = k
    · rw [alookup_cons, if_pos hk] at h
      obtain rfl : av = v := by injection h
      subst hk
      exact List.mem_cons_self _ _
    · rw [alookup_cons, if_neg hk] at h
      exact List.mem_cons_of_mem _ (ih h)

theorem alookup_filter_ne {α : Type} (l : List (String × α)) (k q : String) (h : q ≠ k) :
    alookup (l.filter (fun e => e.1 ≠ k)) q = alookup l q := by
  induction l with
  | nil => rfl
  | cons a t ih =>
    rcases a with ⟨ak, av⟩
    rw [List.filter_cons]
    by_cases hk : ak = k
    · rw [if_neg (by simp [hk]), ih, alookup_cons,
        if_neg (by rw [hk]; exact fun e => h e.symm)]
    · rw [if_pos (by simp [hk]), alookup_cons, alookup_cons, ih]

theorem alookup_filter_self {α : Type} (l : List (String × α)) (k : String) :
    alookup (l.filter (fun e => e.1 ≠ k)) k = none := by
  rw [alookup_eq_none]
  intro q hq
  have := List.of_mem_filter hq
  simpa using this

theorem alookup_aupsert_self {α : Type} (l : List (String × α)) (k : String) (v : α) :
    alookup (aupsert l k v) k = some v := by
  simp [aupsert, alookup_cons]

theorem alookup_aupsert_ne {α : Type} (l : List (String × α)) (k q : String) (v : α)
    (h : q ≠ k) : alookup (aupsert l k v) q = alookup l q := by
  have hk : k ≠ q := fun e => h e.symm
  rw [aupsert, alookup_cons, if_neg hk]
  exact alookup_filter_ne l k q h

theorem alookup_amodify_self (l : List (String × CacheEntry)) (k : String)
    (f : CacheEntry → CacheEntry) :
    alookup (amodify l k f) k = (alookup l k).map f := by
  induction l with
  | nil => rfl
  | cons a t ih =>
    rcases a with ⟨ak, av⟩
    dsimp only [amodify, List.map_cons]
    by_cases hk : ak = k
    · rw [if_pos hk, alookup_cons, if_pos hk, alookup_cons, if_pos hk]
      rfl
    · rw [if_neg hk, alookup_cons, if_neg hk, alookup_cons, if_neg hk]
      exact ih

theorem alookup_amodify_ne (l : List (String × CacheEntry)) (k q : String)
    (f : CacheEntry → CacheEntry) (h : q ≠ k) :
    alookup (amodify l k f) q = alookup l q := by
  induction l with
  | nil => rfl
  | cons a t ih =>
    rcases a with ⟨ak, av⟩
    dsimp only [amodify, List.map_cons]
    by_cases hk : ak = k
    · have hq : ak ≠ q := by rw [hk]; exact fun e => h e.symm
      rw [if_pos hk, alookup_cons, if_neg hq, alookup_cons, if_neg hq]
      exact ih
    · by_cases hq : ak = q
      · rw [if_neg hk, alookup_cons, if_pos hq, alookup_cons, if_pos hq]
      · rw [if_neg hk, alookup_cons, if_neg hq, alookup_cons, if_neg hq]
        exact ih

theorem alookup_sublist_none {α : Type} {l l' : List (String × α)} {k : String}
    (hs : List.Sublist l' l) (h : alookup l k = none) : alookup l' k = none := by
  rw [alookup_eq_none] at h ⊢
  exact fun q hq => h q (hs.mem hq)

theorem alookup_lruInsert_ne (c : List (String × CacheEntry)) (k q : String)
    (e : CacheEntry) (m : Nat) (h : q ≠ k) (hc : alookup c q = none) :
    alookup (lruInsert m c k e) q = none := by
  have hk : k ≠ q := fun e => h e.symm
  have h1 : alookup (c.filter (fun x => x.1 ≠ k)) q = none := by
    rw [alookup_filter_ne _ _ _ h]; exact hc
  rw [lruInsert]
  simp only [alookup_cons, if_neg hk]
  split
  · exact alookup_sublist_none (List.dropLast_sublist _) h1
  · exact h1

/-! ## Pattern-engine closed form -/

theorem foldl_analyzeStep (m : Matcher) (content file_path : String)
    (ps : List SecurityPattern) (acc : Int × List Finding) :
    ps.foldl (analyzeStep m content file_path) acc =
      (acc.1 - penaltySum (ps.filter (patternMatched m content (strLower (pathSuffix file_path)))),
       acc.2 ++ (ps.filter (patternMatched m content (strLower (pathSuffix file_path)))).map
         (mkFinding m content file_path)) := by
  induction ps generalizing acc with
  | nil => simp [penaltySum]
  | cons p t ih =>
    rw [List.foldl_cons, ih, List.filter_cons]
    by_cases h1 : strLower (pathSuffix file_path) ∈ p.file_types
    · by_cases h2 : 0 < m p content
      · rw [if_pos (by simp [patternMatched, h1, h2])]
        dsimp only [analyzeStep]
        rw [if_pos h1, if_pos h2]
        simp only [penaltySum, List.map_cons, List.sum_cons, Prod.mk.injEq]
        refine ⟨by omega, by simp⟩
      · rw [if_neg (by simp [patternMatched, h1, h2])]
        dsimp only [analyzeStep]
        rw [if_pos h1, if_neg h2]
    · rw [if_neg (by simp [patternMatched, h1])]
      dsimp only [analyzeStep]
      rw [if_neg h1]

/-! ## Hex-truncation bounds for the partition router -/

theorem hexDigitVal_lt (c : Char) : hexDigitVal c < 16 := by
  rw [hexDigitVal]
  split_ifs <;> omega

theorem hexStrVal_mk (l : List Char) :
    hexStrVal (String.mk l) = l.foldl (fun a c => a * 16 + hexDigitVal c) 0 := rfl

theorem hexStrVal_strTake2_lt (s : String) : hexStrVal (strTake s 2) < 256 := by
  rw [strTake, hexStrVal_mk]
  generalize s.toList = l
  rcases l with _ | ⟨a, _ | ⟨b, t⟩⟩
  · simp
  · have := hexDigitVal_lt a
    simp only [List.take, List.foldl]
    omega
  · have ha := hexDigitVal_lt a
    have hb := hexDigitVal_lt b
    simp only [List.take, List.foldl]
    omega

/-! ## Claim theorems -/

/-- C1: `analyze_content` returns score `max 0 (100 − Σ penalties)` where
each pattern whose extension set contains the path's lowercased extension
and that matches at least once contributes one finding carrying its
aggregated match count (penalties 30/20/10/5 for CRITICAL/HIGH/MEDIUM/LOW),
findings listed in pattern declaration order; in particular a `.py` file on
which only the hardcoded-password pattern matches yields exactly one HIGH
"Hardcoded password" finding and score 80. -/
theorem analyze_content_score_formula
    (m : Matcher) (c path : String)
    (hext : strLower (pathSuffix path) = ".py")
    (hpw : 0 < m sp_hardcoded_password c)
    (hothers : ∀ p ∈ securityPatterns, p ≠ sp_hardcoded_password → m p c = 0) :
    (∀ (m' : Matcher) (c' path' : String),
      analyze_content m' c' path' =
        (max 0 (100 - penaltySum (matchedPatterns m' c' path')),
         (matchedPatterns m' c' path').map (mkFinding m' c' path'))) ∧
    analyze_content m c path =
      (80, [{ type := "Hardcoded password", severity := "HIGH",
              pattern := strTake sp_hardcoded_password.pattern 50 ++ "...",
              matchCount := m sp_hardcoded_password c, file := path }]) := by
  have hgen : ∀ (m' : Matcher) (c' path' : String),
      analyze_content m' c' path' =
        (max 0 (100 - penaltySum (matchedPatterns m' c' path')),
         (matchedPatterns m' c' path').map (mkFinding m' c' path')) := by
    intro m' c' path'
    unfold analyze_content matchedPatterns
    rw [foldl_analyzeStep]
    rfl
  refine ⟨hgen, ?_⟩
  have e1 : patternMatched m c ".py" sp_hardcoded_password = true := by
    rw [patternMatched]
    simp only [Bool.and_eq_true, decide_eq_true_eq]
    exact ⟨by decide, hpw⟩
  have hz : ∀ p ∈ securityPatterns, p ≠ sp_hardcoded_password →
      patternMatched m c ".py" p = false := by
    intro p hp hne
    rw [patternMatched, hothers p hp hne]
    simp
  have e2 := hz sp_hardcoded_api_key (by decide) (by decide)
  have e3 := hz sp_hardcoded_secret (by decide) (by decide)
  have e4 := hz sp_sql_injection (by decide) (by decide)
  have e5 := hz sp_sql_injection_fstring (by decide) (by decide)
  have e6 := hz sp_command_injection (by decide) (by decide)
  have e7 := hz sp_command_injection_subprocess (by decide) (by decide)
  have e8 := hz sp_code_injection_eval (by decide) (by decide)
  have e9 := hz sp_path_traversal (by decide) (by decide)
  have e10 := hz sp_weak_hash (by decide) (by decide)
  have e11 := hz sp_insecure_random (by decide) (by decide)
  have e12 := hz sp_permissive_cors (by decide) (by decide)
  have e13 := hz sp_unsafe_pickle (by decide) (by decide)
  have e14 := hz sp_unsafe_yaml (by decide) (by decide)
  have hm : matchedPatterns m c path = [sp_hardcoded_password] := by
    unfold matchedPatterns securityPatterns
    rw [hext]
    simp only [List.filter_cons, List.filter_nil, e1, e2, e3, e4, e5, e6, e7, e8,
      e9, e10, e11, e12, e13, e14]
    simp
  rw [hgen, hm]
  simp [penaltySum, severityPenalty, mkFinding, sp_hardcoded_password]

/-- Witness for C1: a concrete matcher under which only the
hardcoded-password pattern fires on the scenario content. -/
theorem analyze_content_score_formula_witness :
    analyze_content cMatcher "password = \"abc123\"" "/tmp/test.py" =
      (80, [{ type := "Hardcoded password", severity := "HIGH",
              pattern := strTake sp_hardcoded_password.pattern 50 ++ "...",
              matchCount := cMatcher sp_hardcoded_password "password = \"abc123\"",
              file := "/tmp/test.py" }]) :=
  (analyze_content_score_formula cMatcher "password = \"abc123\"" "/tmp/test.py"
    (by decide) (by decide) (by decide)).2

/-- C4: the partition router is `int(md5(path)[:2], 16) mod N`: the
truncated digest ranges over one byte, the resulting index is below the
partition count, and the outcome depends only on the path's digest and the
partition count (so repeated calls and restarts with the same count agree). -/
theorem partition_router_stable_and_ranged (md5hex : String → String) (n : Nat)
    (path : String) (hn : 0 < n) :
    ∃ i : Nat,
      get_partition_for_path md5hex n path = partitionName i ∧
      i = hexStrVal (strTake (md5hex path) 2) % n ∧
      hexStrVal (strTake (md5hex path) 2) < 256 ∧
      i < n ∧
      ∀ md5hex' : String → String, md5hex' path = md5hex path →
        get_partition_for_path md5hex' n path = get_partition_for_path md5hex n path := by
  refine ⟨hexStrVal (strTake (md5hex path) 2) % n, rfl, rfl,
    hexStrVal_strTake2_lt _, Nat.mod_lt _ hn, ?_⟩
  intro f hf
  simp [get_partition_for_path, hf]

/-- Witness for C4 at a concrete digest and partition count. -/
theorem partition_router_stable_and_ranged_witness :
    0 < 4 ∧
    ∃ i : Nat,
      get_partition_for_path cExt.md5hex 4 "/tmp/a.txt" = partitionName i ∧
      i = hexStrVal (strTake (cExt.md5hex "/tmp/a.txt") 2) % 4 ∧
      hexStrVal (strTake (cExt.md5hex "/tmp/a.txt") 2) < 256 ∧
      i < 4 ∧
      ∀ md5hex' : String → String, md5hex' "/tmp/a.txt" = cExt.md5hex "/tmp/a.txt" →
        get_partition_for_path md5hex' 4 "/tmp/a.txt" =
          get_partition_for_path cExt.md5hex 4 "/tmp/a.txt" :=
  ⟨by decide, partition_router_stable_and_ranged cExt.md5hex 4 "/tmp/a.txt" (by decide)⟩

/-- C7: `clear` without confirmation returns the rejection and mutates
nothing; with confirmation it empties every partition's blob table, the
index, the vulnerability table, the commit table, and both in-memory
tiers. -/
theorem clear_requires_confirmation (st : EngineState) :
    handle_clear st false = (ClearResult.rejected, st) ∧
    (handle_clear st true).1 = ClearResult.cleared ∧
    (handle_clear st true).2.partitions = st.partitions.map (fun q => (q.1, [])) ∧
    (handle_clear st true).2.index = [] ∧
    (handle_clear st true).2.vulns = [] ∧
    (handle_clear st true).2.gitCommits = [] ∧
    (handle_clear st true).2.memoryCache = [] ∧
    (handle_clear st true).2.ttlCache = [] := by
  simp [handle_clear]

/-- C10: the classifier returns only source, config, documentation or data
— never binary or security-sensitive — and returns source exactly when the
lowercased extension is in the fixed source set, so that together with the
enable flag this membership alone decides whether security analysis runs. -/
theorem classifier_range_and_source_criterion (path : String) :
    (determine_file_type path = FileType.source_code ∨
     determine_file_type path = FileType.config ∨
     determine_file_type path = FileType.documentation ∨
     determine_file_type path = FileType.data) ∧
    determine_file_type path ≠ FileType.binary ∧
    determine_file_type path ≠ FileType.security_sensitive ∧
    (determine_file_type path = FileType.source_code ↔
      strLower (pathSuffix path) ∈ source_extensions) ∧
    ∀ cfg : Config, security_analysis_applies cfg path =
      (cfg.security_analysis && decide (strLower (pathSuffix path) ∈ source_extensions)) := by
  by_cases h1 : strLower (pathSuffix path) ∈ source_extensions
  · have hd : determine_file_type path = FileType.source_code := by
      unfold determine_file_type
      rw [if_pos h1]
    refine ⟨Or.inl hd, by simp [hd], by simp [hd], by simp [hd, h1], ?_⟩
    intro cfg
    simp [security_analysis_applies, hd, h1]
  · have hd2 : determine_file_type path = FileType.config ∨
        determine_file_type path = FileType.documentation ∨
        determine_file_type path = FileType.data := by
      unfold determine_file_type
      rw [if_neg h1]
      split_ifs <;> simp
    have hd : determine_file_type path ≠ FileType.source_code := by
      rcases hd2 with h | h | h <;> simp [h]
    refine ⟨?_, ?_, ?_, ?_, ?_⟩
    · rcases hd2 with h | h | h <;> simp [h]
    · rcases hd2 with h | h | h <;> simp [h]
    · rcases hd2 with h | h | h <;> simp [h]
    · exact ⟨fun h => absurd h hd, fun h => absurd h h1⟩
    · intro cfg
      have d1 : decide (determine_file_type path = FileType.source_code) = false := by
        simp [hd]
      have d2 : decide (strLower (pathSuffix path) ∈ source_extensions) = false := by
        simp [h1]
      rw [security_analysis_applies, d1, d2]

/-- The freshness-check branch of `cache_file_enhanced` in closed form. -/
theorem cache_file_fresh_run
    (E : ExternalFns) (cfg : Config) (allowed : List String)
    (fs : String → Option FileInfo) (now : Int) (gs : Option String)
    (st : EngineState) (p : String) (e : CacheEntry) (fi : FileInfo)
    (hval : validate_path E.resolve allowed p = true)
    (hlook : alookup st.index (E.resolve p) = some e)
    (hfs : fs (E.resolve p) = some fi)
    (hfresh : fi.mtime ≤ e.modified_time) :
    cache_file_enhanced E cfg allowed fs now gs st p false =
      (some e, update_access_stats now st (E.resolve p)) := by
  rw [cache_file_enhanced, hval]
  rw [if_neg (by decide)]
  simp only [Bool.false_eq_true, if_false, hlook, hfs, hfresh, if_pos]

/-- C2 (amended): on a fresh index entry, `cache_file_enhanced` without
`force` performs no ingestion: the stored row's access-count is incremented
by exactly one and its last-accessed is set to the call time, every other
piece of state (other index rows, partitions, vulnerabilities, both tiers,
metrics log) is untouched, and the call returns the *pre-update* snapshot
of the entry — so a second call on an unchanged file returns an entry whose
access-count and last-accessed equal the first call's returned values,
while the stored row's access-count is one higher. -/
theorem cache_file_fresh_hit_updates_stats_only
    (E : ExternalFns) (cfg : Config) (allowed : List String)
    (fs : String → Option FileInfo) (now : Int) (gs : Option String)
    (st : EngineState) (p : String) (e : CacheEntry) (fi : FileInfo)
    (hval : validate_path E.resolve allowed p = true)
    (hlook : alookup st.index (E.resolve p) = some e)
    (hfs : fs (E.resolve p) = some fi)
    (hfresh : fi.mtime ≤ e.modified_time) :
    cache_file_enhanced E cfg allowed fs now gs st p false =
      (some e, update_access_stats now st (E.resolve p)) ∧
    alookup (cache_file_enhanced E cfg allowed fs now gs st p false).2.index (E.resolve p) =
      some { e with access_count := e.access_count + 1, last_accessed := now } ∧
    (∀ q, q ≠ E.resolve p →
      alookup (cache_file_enhanced E cfg allowed fs now gs st p false).2.index q =
        alookup st.index q) ∧
    (cache_file_enhanced E cfg allowed fs now gs st p false).2.partitions = st.partitions ∧
    (cache_file_enhanced E cfg allowed fs now gs st p false).2.vulns = st.vulns ∧
    (cache_file_enhanced E cfg allowed fs now gs st p false).2.memoryCache = st.memoryCache ∧
    (cache_file_enhanced E cfg allowed fs now gs st p false).2.ttlCache = st.ttlCache ∧
    (cache_file_enhanced E cfg allowed fs now gs st p false).2.metricsLog = st.metricsLog := by
  have hrun := cache_file_fresh_run E cfg allowed fs now gs st p e fi hval hlook hfs hfresh
  rw [hrun]
  refine ⟨rfl, ?_, ?_, rfl, rfl, rfl, rfl, rfl⟩
  · dsimp only [update_access_stats]
    rw [alookup_amodify_self, hlook]
    rfl
  · intro q hq
    dsimp only [update_access_stats]
    exact alookup_amodify_ne _ _ _ _ hq

/-- Witness for C2's amended theorem on a concrete fresh state. -/
theorem cache_file_fresh_hit_updates_stats_only_witness :
    cache_file_enhanced cExt {} ["/tmp"] cFs 20 none cStateFresh "/tmp/a.txt" false =
      (some cEntryA, update_access_stats 20 cStateFresh "/tmp/a.txt") ∧
    alookup (cache_file_enhanced cExt {} ["/tmp"] cFs 20 none cStateFresh
        "/tmp/a.txt" false).2.index "/tmp/a.txt" =
      some { cEntryA with access_count := cEntryA.access_count + 1, last_accessed := 20 } := by
  have h := cache_file_fresh_hit_updates_stats_only cExt {} ["/tmp"] cFs 20 none
    cStateFresh "/tmp/a.txt" cEntryA { content := [97, 98], mtime := 3 }
    (by decide) (by decide) (by decide) (by decide)
  exact ⟨h.1, h.2.1⟩

/-- Counterexample to C2 as stated: caching the same unchanged file twice
without `force` returns, on the second call, the stored pre-increment
snapshot — its access-count (1) and last-accessed (the first call's time)
equal the first call's returned values rather than being incremented and
updated. -/
theorem cache_file_second_call_counterexample :
    ((cache_file_enhanced cExt {} ["/tmp"] cFs 10 none cState0 "/tmp/a.txt" false).1.map
        CacheEntry.access_count = some 1) ∧
    ((cache_file_enhanced cExt {} ["/tmp"] cFs 20 none
        (cache_file_enhanced cExt {} ["/tmp"] cFs 10 none cState0 "/tmp/a.txt" false).2
        "/tmp/a.txt" false).1.map CacheEntry.access_count = some 1) ∧
    ((cache_file_enhanced cExt {} ["/tmp"] cFs 20 none
        (cache_file_enhanced cExt {} ["/tmp"] cFs 10 none cState0 "/tmp/a.txt" false).2
        "/tmp/a.txt" false).1.map CacheEntry.last_accessed = some 10) ∧
    ¬ ((cache_file_enhanced cExt {} ["/tmp"] cFs 20 none
        (cache_file_enhanced cExt {} ["/tmp"] cFs 10 none cState0 "/tmp/a.txt" false).2
        "/tmp/a.txt" false).1.map CacheEntry.access_count =
      (cache_file_enhanced cExt {} ["/tmp"] cFs 10 none cState0 "/tmp/a.txt" false).1.map
        (fun e => e.access_count + 1)) := by
  decide

/-- `cache_ingest` rejects an oversized file without touching any state. -/
theorem cache_ingest_oversize
    (E : ExternalFns) (cfg : Config) (fs : String → Option FileInfo)
    (now : Int) (gs : Option String) (st : EngineState) (path : String) (fi : FileInfo)
    (hfs : fs path = some fi)
    (hbig : cfg.max_file_size_mb * 1024 * 1024 < fi.content.length) :
    cache_ingest E cfg fs now gs st path = (none, st) := by
  rw [cache_ingest]
  simp only [hfs, hbig, if_pos]

/-- C9 (amended): a path whose canonical form lies under no allow-list root
is rejected with no entry and an unchanged state; a readable file larger
than the configured ceiling is likewise rejected with no entry and an
unchanged state, provided the size check is actually reached (forced call,
no index entry, or a stale index entry — the source returns the cached
entry without reading the file when a fresh index entry exists). -/
theorem cache_file_rejects_invalid_and_oversize
    (E : ExternalFns) (cfg : Config) (allowed : List String)
    (fs : String → Option FileInfo) (now : Int) (gs : Option String)
    (st : EngineState) (p : String) (force : Bool) :
    (validate_path E.resolve allowed p = false →
      cache_file_enhanced E cfg allowed fs now gs st p force = (none, st)) ∧
    (∀ fi : FileInfo,
      validate_path E.resolve allowed p = true →
      fs (E.resolve p) = some fi →
      cfg.max_file_size_mb * 1024 * 1024 < fi.content.length →
      (force = true ∨ alookup st.index (E.resolve p) = none ∨
        ∃ e, alookup st.index (E.resolve p) = some e ∧ e.modified_time < fi.mtime) →
      cache_file_enhanced E cfg allowed fs now gs st p force = (none, st)) := by
  constructor
  · intro h
    rw [cache_file_enhanced, h, if_pos rfl]
  · intro fi hval hfs hbig hreach
    have hing := cache_ingest_oversize E cfg fs now gs st (E.resolve p) fi hfs hbig
    rw [cache_file_enhanced, hval, if_neg (by decide)]
    rcases hreach with hf | hnone | ⟨e, he, hstale⟩
    · subst hf
      simpa using hing
    · simp only [hnone]
      cases force <;> simpa using hing
    · cases force
      · simp only [Bool.false_eq_true, if_false, he, hfs]
        rw [if_neg (by omega)]
        exact hing
      · simpa using hing

/-- Witness for C9's amended theorem: both rejection paths on concrete
inputs. -/
theorem cache_file_rejects_invalid_and_oversize_witness :
    cache_file_enhanced cExt {} ["/home"] cFs 10 none cState0 "/tmp/a.txt" false =
      (none, cState0) ∧
    cache_file_enhanced cExt { max_file_size_mb := 0 } ["/tmp"] cFs 10 none cState0
      "/tmp/a.txt" false = (none, cState0) := by
  constructor
  · exact (cache_file_rejects_invalid_and_oversize cExt {} ["/home"] cFs 10 none cState0
      "/tmp/a.txt" false).1 (by decide)
  · exact (cache_file_rejects_invalid_and_oversize cExt { max_file_size_mb := 0 } ["/tmp"]
      cFs 10 none cState0 "/tmp/a.txt" false).2 { content := [97, 98], mtime := 3 }
      (by decide) (by decide) (by decide) (Or.inr (Or.inl (by decide)))

/-- Counterexample to C9 as stated: with a fresh index entry present, an
oversized readable file is *not* rejected — the cached entry is returned
and the index row is mutated (access stats), because the freshness check
short-circuits before the size check. -/
theorem cache_file_oversize_fresh_counterexample :
    cFs "/tmp/a.txt" = some { content := [97, 98], mtime := 3 } ∧
    ({ max_file_size_mb := 0 } : Config).max_file_size_mb * 1024 * 1024 < 2 ∧
    (cache_file_enhanced cExt { max_file_size_mb := 0 } ["/tmp"] cFs 10 none cStateFresh
      "/tmp/a.txt" false).1 = some cEntryA ∧
    (cache_file_enhanced cExt { max_file_size_mb := 0 } ["/tmp"] cFs 10 none cStateFresh
      "/tmp/a.txt" false).2 ≠ cStateFresh := by
  decide

/-- A forced `cache_file_enhanced` call on an allowed path is exactly the
ingestion pipeline. -/
theorem cache_file_force_eq_ingest
    (E : ExternalFns) (cfg : Config) (allowed : List String)
    (fs : String → Option FileInfo) (now : Int) (gs : Option String)
    (st : EngineState) (p : String)
    (hval : validate_path E.resolve allowed p = true) :
    cache_file_enhanced E cfg allowed fs now gs st p true =
      cache_ingest E cfg fs now gs st (E.resolve p) := by
  rw [cache_file_enhanced, hval, if_neg (by decide)]
  rfl

/-- A successful ingestion in closed form. -/
theorem cache_ingest_success
    (E : ExternalFns) (cfg : Config) (fs : String → Option FileInfo)
    (now : Int) (gs : Option String) (st : EngineState) (path : String)
    (fi : FileInfo) (prows : List (String × PartitionRow))
    (hfs : fs path = some fi)
    (hsize : ¬ cfg.max_file_size_mb * 1024 * 1024 < fi.content.length)
    (hpart : alookup st.partitions
      (get_partition_for_path E.md5hex st.partitions.length path) = some prows) :
    cache_ingest E cfg fs now gs st path =
      (some (ingestEntry E cfg now gs st.partitions.length path fi),
       { st with
         partitions := aupsert st.partitions
           (get_partition_for_path E.md5hex st.partitions.length path)
           (aupsert prows path (ingestRow E cfg fi))
         index := aupsert st.index path (ingestEntry E cfg now gs st.partitions.length path fi)
         memoryCache := lruInsert 1000 st.memoryCache path
           (ingestEntry E cfg now gs st.partitions.length path fi)
         ttlCache := lruInsert 5000 st.ttlCache path
           (ingestEntry E cfg now gs st.partitions.length path fi)
         vulns := st.vulns ++ ingestVulnRows E cfg now path fi
         statsCachedFiles := st.statsCachedFiles + 1 }) := by
  rw [cache_ingest, hfs]
  dsimp only
  rw [if_neg hsize, hpart]

/-- An ingestion whose router target is missing from the partition table
only records an error. -/
theorem cache_ingest_no_partition
    (E : ExternalFns) (cfg : Config) (fs : String → Option FileInfo)
    (now : Int) (gs : Option String) (st : EngineState) (path : String)
    (fi : FileInfo)
    (hfs : fs path = some fi)
    (hsize : ¬ cfg.max_file_size_mb * 1024 * 1024 < fi.content.length)
    (hpart : alookup st.partitions
      (get_partition_for_path E.md5hex st.partitions.length path) = none) :
    cache_ingest E cfg fs now gs st path =
      (none, { st with statsErrors := st.statsErrors + 1 }) := by
  rw [cache_ingest, hfs]
  dsimp only
  rw [if_neg hsize, hpart]

/-- An ingestion of an unreadable file changes nothing. -/
theorem cache_ingest_no_file
    (E : ExternalFns) (cfg : Config) (fs : String → Option FileInfo)
    (now : Int) (gs : Option String) (st : EngineState) (path : String)
    (hfs : fs path = none) :
    cache_ingest E cfg fs now gs st path = (none, st) := by
  rw [cache_ingest, hfs]

theorem alookup_lruInsert_self (c : List (String × CacheEntry)) (k : String)
    (e : CacheEntry) (m : Nat) : alookup (lruInsert m c k e) k = some e := by
  rw [lruInsert]
  simp [alookup_cons]

/-- C3: every ingested entry records the digest of the uncompressed bytes
as its checksum; above the compression threshold the blob is stored
compressed and flagged, and decompressing it restores bytes whose digest is
the recorded checksum; at or below the threshold the blob is raw and its
digest is the checksum directly; the content-retrieval path returns the
original bytes. -/
theorem cache_checksum_compression_roundtrip
    (E : ExternalFns) (cfg : Config) (allowed : List String)
    (fs : String → Option FileInfo) (now : Int) (gs : Option String)
    (st : EngineState) (p : String) (entry : CacheEntry) (st' : EngineState) (fi : FileInfo)
    (hinv : ∀ b : Bytes, E.gzipDecompress (E.gzipCompress b) = b)
    (hfs : fs (E.resolve p) = some fi)
    (hrun : cache_file_enhanced E cfg allowed fs now gs st p true = (some entry, st')) :
    entry.checksum = E.sha256hex fi.content ∧
    (∃ pid prows row,
      entry.partition_key = some pid ∧
      alookup st'.partitions pid = some prows ∧
      alookup prows (E.resolve p) = some row ∧
      row.compressed = entry.compressed ∧
      (cfg.compression_threshold_kb * 1024 < fi.content.length →
        row.compressed = true ∧ E.sha256hex (E.gzipDecompress row.content) = entry.checksum) ∧
      (fi.content.length ≤ cfg.compression_threshold_kb * 1024 →
        row.compressed = false ∧ E.sha256hex row.content = entry.checksum)) ∧
    (get_cached_content E st' (E.resolve p)).1 = some fi.content := by
  by_cases hval : validate_path E.resolve allowed p = true
  case neg =>
    rw [cache_file_enhanced, if_pos (by simpa using hval)] at hrun
    simp at hrun
  rw [cache_file_force_eq_ingest E cfg allowed fs now gs st p hval] at hrun
  by_cases hsize : cfg.max_file_size_mb * 1024 * 1024 < fi.content.length
  · rw [cache_ingest, hfs] at hrun
    dsimp only at hrun
    rw [if_pos hsize] at hrun
    simp at hrun
  cases halo : alookup st.partitions
      (get_partition_for_path E.md5hex st.partitions.length (E.resolve p)) with
  | none =>
    rw [cache_ingest_no_partition E cfg fs now gs st (E.resolve p) fi hfs hsize halo] at hrun
    simp at hrun
  | some prows =>
    rw [cache_ingest_success E cfg fs now gs st (E.resolve p) fi prows hfs hsize halo] at hrun
    have he : ingestEntry E cfg now gs st.partitions.length (E.resolve p) fi = entry := by
      have := congrArg Prod.fst hrun
      simpa using this
    have hs := congrArg Prod.snd hrun
    dsimp only at hs
    subst he
    subst hs
    refine ⟨rfl, ?_, ?_⟩
    · refine ⟨get_partition_for_path E.md5hex st.partitions.length (E.resolve p),
        aupsert prows (E.resolve p) (ingestRow E cfg fi), ingestRow E cfg fi,
        rfl, alookup_aupsert_self _ _ _, alookup_aupsert_self _ _ _, rfl, ?_, ?_⟩
      · intro hlt
        constructor
        · rw [ingestRow]
          dsimp only
          rw [ingestStored, if_pos hlt]
        · rw [ingestRow]
          dsimp only
          rw [ingestStored, if_pos hlt, hinv]
          rfl
      · intro hle
        constructor
        · rw [ingestRow]
          dsimp only
          rw [ingestStored, if_neg (by omega)]
        · rw [ingestRow]
          dsimp only
          rw [ingestStored, if_neg (by omega)]
          rfl
    · rw [get_cached_content]
      rw [show alookup ({ st with
          partitions := aupsert st.partitions
            (get_partition_for_path E.md5hex st.partitions.length (E.resolve p))
            (aupsert prows (E.resolve p) (ingestRow E cfg fi))
          index := aupsert st.index (E.resolve p)
            (ingestEntry E cfg now gs st.partitions.length (E.resolve p) fi)
          memoryCache := lruInsert 1000 st.memoryCache (E.resolve p)
            (ingestEntry E cfg now gs st.partitions.length (E.resolve p) fi)
          ttlCache := lruInsert 5000 st.ttlCache (E.resolve p)
            (ingestEntry E cfg now gs st.partitions.length (E.resolve p) fi)
          vulns := st.vulns ++ ingestVulnRows E cfg now (E.resolve p) fi
          statsCachedFiles := st.statsCachedFiles + 1 } : EngineState).memoryCache (E.resolve p)
        = some (ingestEntry E cfg now gs st.partitions.length (E.resolve p) fi)
        from alookup_lruInsert_self _ _ _ _]
      dsimp only
      rw [read_cached_content]
      dsimp only [ingestEntry]
      rw [alookup_aupsert_self]
      dsimp only
      rw [alookup_aupsert_self]
      dsimp only
      rw [ingestRow]
      dsimp only
      by_cases hcomp : cfg.compression_threshold_kb * 1024 < fi.content.length
      · rw [ingestStored, if_pos hcomp]
        dsimp only
        rw [if_pos rfl, hinv]
      · rw [ingestStored, if_neg hcomp]
        dsimp only
        rw [if_neg (by decide)]

/-- Witness for C3 on a concrete ingestion that crosses the compression
threshold. -/
theorem cache_checksum_compression_roundtrip_witness :
    (ingestEntry cExt { compression_threshold_kb := 0 } 10 none 4 "/tmp/a.txt"
      { content := [97, 98], mtime := 3 }).checksum = cExt.sha256hex [97, 98] ∧
    (get_cached_content cExt
      (cache_file_enhanced cExt { compression_threshold_kb := 0 } ["/tmp"] cFs 10 none
        cState0 "/tmp/a.txt" true).2 "/tmp/a.txt").1 = some [97, 98] := by
  have h := cache_checksum_compression_roundtrip cExt { compression_threshold_kb := 0 }
    ["/tmp"] cFs 10 none cState0 "/tmp/a.txt"
    (ingestEntry cExt { compression_threshold_kb := 0 } 10 none 4 "/tmp/a.txt"
      { content := [97, 98], mtime := 3 })
    (cache_file_enhanced cExt { compression_threshold_kb := 0 } ["/tmp"] cFs 10 none
      cState0 "/tmp/a.txt" true).2
    { content := [97, 98], mtime := 3 }
    (fun b => rfl) (by decide) (by decide)
  exact ⟨h.1, h.2.2⟩

/-- `read_cached_content` only consults the partition stores. -/
theorem read_cached_content_partitions
    (E : ExternalFns) (st₁ st₂ : EngineState) (e : CacheEntry)
    (h : st₁.partitions = st₂.partitions) :
    read_cached_content E st₁ e = read_cached_content E st₂ e := by
  rw [read_cached_content, read_cached_content, h]

/-- C5: the read path checks the hot tier first and returns on a hit
(leaving the warm tier, index and partitions untouched); otherwise a warm
hit is returned and the same entry is inserted into the hot tier without
being removed from the warm tier; only when both tiers miss does the call
fall through to the persistent index, reconstruct the entry, and read the
blob from the owning partition, decompressing when the stored flag is
set. -/
theorem get_cached_content_tiering (E : ExternalFns) (st : EngineState) (p : String) :
    (∀ e, alookup st.memoryCache p = some e →
      (get_cached_content E st p).1 = read_cached_content E st e ∧
      (get_cached_content E st p).2.ttlCache = st.ttlCache ∧
      (get_cached_content E st p).2.index = st.index ∧
      (get_cached_content E st p).2.partitions = st.partitions) ∧
    (∀ e, alookup st.memoryCache p = none → alookup st.ttlCache p = some e →
      (get_cached_content E st p).1 = read_cached_content E st e ∧
      alookup (get_cached_content E st p).2.memoryCache p = some e ∧
      (get_cached_content E st p).2.ttlCache = st.ttlCache ∧
      alookup (get_cached_content E st p).2.ttlCache p = some e) ∧
    (alookup st.memoryCache p = none → alookup st.ttlCache p = none →
      (get_cached_content E st p).2 = st ∧
      (get_cached_content E st p).1 =
        match alookup st.index p with
        | none => none
        | some e =>
          match e.partition_key with
          | none => none
          | some pid =>
            match alookup st.partitions pid with
            | none => none
            | some prows =>
              match alookup prows e.path with
              | none => none
              | some row =>
                some (if row.compressed then E.gzipDecompress row.content
                      else row.content)) := by
  refine ⟨?_, ?_, ?_⟩
  · intro e he
    rw [get_cached_content, he]
    exact ⟨rfl, rfl, rfl, rfl⟩
  · intro e hm ht
    rw [get_cached_content, hm, ht]
    dsimp only
    refine ⟨read_cached_content_partitions E _ _ e rfl, ?_, rfl, ht⟩
    exact alookup_lruInsert_self _ _ _ _
  · intro hm ht
    rw [get_cached_content, hm, ht]
    dsimp only [get_cache_entry]
    cases hi : alookup st.index p with
    | none => exact ⟨rfl, rfl⟩
    | some e =>
      dsimp only
      exact ⟨rfl, by rw [read_cached_content]⟩

/-- Witness for C5: a warm-tier hit is served, promoted into the hot tier,
and left in the warm tier. -/
theorem get_cached_content_tiering_witness :
    (get_cached_content cExt cStateWarm "/tmp/a.txt").1 = some [97, 98] ∧
    alookup (get_cached_content cExt cStateWarm "/tmp/a.txt").2.memoryCache "/tmp/a.txt" =
      some cEntryA ∧
    (get_cached_content cExt cStateWarm "/tmp/a.txt").2.ttlCache = cStateWarm.ttlCache := by
  have h := (get_cached_content_tiering cExt cStateWarm "/tmp/a.txt").2.1 cEntryA
    (by decide) (by decide)
  exact ⟨h.1.trans (by decide), h.2.1, h.2.2.1⟩

/-- C8 (amended): `get_performance_metrics` reports the hit counter, the
miss counter (defaulted to 0 when never recorded), tier sizes,
per-partition entry counts and the cached-file count, and appends exactly
one row to the metrics log.  The hit-rate percentage is
`100·hits/(hits + misses)` only when a miss count has actually been
recorded; when the miss key is absent — which is every state this engine
can produce, since no code path ever writes it — the denominator defaults
to `hits + 1`. -/
theorem performance_metrics_report (mem : ℚ) (now : Int) (st : EngineState) :
    (get_performance_metrics mem now st).1.cache_hits = st.statsHits ∧
    (get_performance_metrics mem now st).1.cache_misses = st.statsMisses.getD 0 ∧
    (st.statsMisses = none →
      (get_performance_metrics mem now st).1.hit_rate_percent =
        (st.statsHits : ℚ) / ((st.statsHits : ℚ) + 1) * 100) ∧
    (∀ mss : Nat, st.statsMisses = some mss → 0 < st.statsHits + mss →
      (get_performance_metrics mem now st).1.hit_rate_percent =
        (st.statsHits : ℚ) / ((st.statsHits : ℚ) + (mss : ℚ)) * 100) ∧
    (get_performance_metrics mem now st).1.cached_files = st.statsCachedFiles ∧
    (get_performance_metrics mem now st).1.memory_cache_size = st.memoryCache.length ∧
    (get_performance_metrics mem now st).1.ttl_cache_size = st.ttlCache.length ∧
    (get_performance_metrics mem now st).1.partition_balance =
      st.partitions.map (fun q => (q.1, q.2.length)) ∧
    (get_performance_metrics mem now st).2 =
      { st with metricsLog := st.metricsLog ++
        [{ timestamp := now, cache_hits := st.statsHits
           cache_misses := st.statsMisses.getD 0, avg_response_time_ms := 0
           memory_usage_mb := mem
           partition_balance := st.partitions.map (fun q => (q.1, q.2.length)) }] } := by
  refine ⟨rfl, rfl, ?_, ?_, rfl, rfl, rfl, rfl, rfl⟩
  · intro hnone
    rw [get_performance_metrics]
    dsimp only
    rw [hnone]
    norm_num
  · intro mss hsome hpos
    rw [get_performance_metrics]
    dsimp only
    rw [hsome]
    rfl

/-- Witness for C8's amended theorem on a state with one hit and no
recorded miss. -/
theorem performance_metrics_report_witness :
    (get_performance_metrics 0 5 cStateHit).1.cache_hits = 1 ∧
    (get_performance_metrics 0 5 cStateHit).1.hit_rate_percent =
      ((1 : ℚ) / ((1 : ℚ) + 1)) * 100 := by
  have h := performance_metrics_report 0 5 cStateHit
  refine ⟨h.1, ?_⟩
  have h3 := h.2.2.1 rfl
  simpa [cStateHit, cState0] using h3

/-- Counterexample to C8 as stated: with one recorded hit and no recorded
miss the reported miss counter is 0, so the claimed rate would be
`100·1/(1+0) = 100`, but the implementation reports 50 because the missing
miss key defaults to 1 in the denominator only. -/
theorem performance_metrics_counterexample :
    (get_performance_metrics 0 5 cStateHit).1.cache_hits = 1 ∧
    (get_performance_metrics 0 5 cStateHit).1.cache_misses = 0 ∧
    (get_performance_metrics 0 5 cStateHit).1.hit_rate_percent = 50 ∧
    ¬ ((get_performance_metrics 0 5 cStateHit).1.hit_rate_percent =
      100 * ((get_performance_metrics 0 5 cStateHit).1.cache_hits : ℚ) /
        (((get_performance_metrics 0 5 cStateHit).1.cache_hits : ℚ) +
          ((get_performance_metrics 0 5 cStateHit).1.cache_misses : ℚ))) := by
  have h1 : (get_performance_metrics 0 5 cStateHit).1.cache_hits = 1 := rfl
  have h2 : (get_performance_metrics 0 5 cStateHit).1.cache_misses = 0 := rfl
  have h3 : (get_performance_metrics 0 5 cStateHit).1.hit_rate_percent = 50 := by
    rw [get_performance_metrics]
    dsimp only [cStateHit, cState0]
    norm_num
  refine ⟨h1, h2, h3, ?_⟩
  rw [h1, h2, h3]
  norm_num

/-! ## Sync-deletion infrastructure -/

theorem alookup_filter_none {α : Type} {l : List (String × α)} {k : String}
    (f : String × α → Bool) (h : alookup l k = none) :
    alookup (l.filter f) k = none := by
  rw [alookup_eq_none] at h ⊢
  exact fun q hq => h q (List.mem_of_mem_filter hq)

/-- `_update_access_stats` never changes a row's partition key, so blob
ownership survives it. -/
theorem consistentBlob_update_access (now : Int) (st : EngineState) (q0 foo : String)
    (h : ConsistentBlob st foo) :
    ConsistentBlob (update_access_stats now st q0) foo := by
  intro q hq hblob
  dsimp only [update_access_stats] at hq hblob ⊢
  have h0 := h q hq hblob
  by_cases hf : foo = q0
  · subst hf
    rw [alookup_amodify_self]
    cases halo : alookup st.index foo with
    | none => rw [halo] at h0; simp at h0
    | some e => rw [halo] at h0; simpa using h0
  · rw [alookup_amodify_ne _ _ _ _ hf]
    exact h0

/-- Ingesting a different path preserves blob ownership for `foo`. -/
theorem consistentBlob_ingest (E : ExternalFns) (cfg : Config)
    (fs : String → Option FileInfo) (now : Int) (gs : Option String)
    (st : EngineState) (path foo : String)
    (hne : path ≠ foo) (h : ConsistentBlob st foo) :
    ConsistentBlob (cache_ingest E cfg fs now gs st path).2 foo := by
  have hfoo : foo ≠ path := fun e => hne e.symm
  cases hfs : fs path with
  | none =>
    rw [cache_ingest_no_file E cfg fs now gs st path hfs]
    exact h
  | some fi =>
    by_cases hsize : cfg.max_file_size_mb * 1024 * 1024 < fi.content.length
    · rw [cache_ingest_oversize E cfg fs now gs st path fi hfs hsize]
      exact h
    · cases halo : alookup st.partitions
          (get_partition_for_path E.md5hex st.partitions.length path) with
      | none =>
        rw [cache_ingest_no_partition E cfg fs now gs st path fi hfs hsize halo]
        exact h
      | some prows =>
        rw [cache_ingest_success E cfg fs now gs st path fi prows hfs hsize halo]
        intro q hq hblob
        dsimp only at hq hblob ⊢
        rw [alookup_aupsert_ne _ _ _ _ hfoo]
        rcases List.mem_cons.mp hq with hq1 | hq2
        · subst hq1
          dsimp only at hblob ⊢
          rw [alookup_aupsert_ne _ _ _ _ hfoo] at hblob
          exact h _ (alookup_mem halo) hblob
        · exact h q (List.mem_of_mem_filter hq2) hblob

/-- A removal of a different path that does not raise preserves blob
ownership for `foo`. -/
theorem consistentBlob_remove (st : EngineState) (q0 foo : String)
    (hne : q0 ≠ foo) (h : ConsistentBlob st foo) :
    ∀ s2, remove_from_cache st q0 = some s2 → ConsistentBlob s2 foo := by
  have hfoo : foo ≠ q0 := fun e => hne e.symm
  intro s2 hrm
  rw [remove_from_cache] at hrm
  cases hi : alookup st.index q0 with
  | none =>
    rw [hi] at hrm
    dsimp only at hrm
    injection hrm with hrm
    subst hrm
    exact h
  | some entry =>
    rw [hi] at hrm
    dsimp only at hrm
    cases hpk : entry.partition_key with
    | none =>
      rw [hpk] at hrm
      simp at hrm
    | some pid =>
      rw [hpk] at hrm
      dsimp only at hrm
      cases halo : alookup st.partitions pid with
      | none =>
        rw [halo] at hrm
        simp at hrm
      | some prows =>
        rw [halo] at hrm
        dsimp only at hrm
        injection hrm with hrm
        subst hrm
        intro q hq hblob
        dsimp only at hq hblob ⊢
        rw [alookup_filter_ne _ _ _ hfoo]
        rcases List.mem_cons.mp hq with hq1 | hq2
        · subst hq1
          dsimp only at hblob ⊢
          rw [alookup_filter_ne _ _ _ hfoo] at hblob
          exact h _ (alookup_mem halo) hblob
        · exact h q (List.mem_of_mem_filter hq2) hblob

/-- A forced cache call on a different path preserves blob ownership. -/
theorem consistentBlob_cache_file (E : ExternalFns) (cfg : Config)
    (allowed : List String) (fs : String → Option FileInfo) (now : Int)
    (gs : Option String) (st : EngineState) (q0 foo : String)
    (hne : E.resolve q0 ≠ foo) (h : ConsistentBlob st foo) :
    ConsistentBlob (cache_file_enhanced E cfg allowed fs now gs st q0 true).2 foo := by
  by_cases hval : validate_path E.resolve allowed q0 = true
  · rw [cache_file_force_eq_ingest E cfg allowed fs now gs st q0 hval]
    exact consistentBlob_ingest E cfg fs now gs st _ foo hne h
  · rw [cache_file_enhanced, if_pos (by simpa using hval)]
    exact h

theorem noIndexNoBlob_update_access (now : Int) (st : EngineState) (q0 foo : String)
    (h : NoIndexNoBlob st foo) :
    NoIndexNoBlob (update_access_stats now st q0) foo := by
  obtain ⟨h1, h2⟩ := h
  constructor
  · dsimp only [update_access_stats]
    by_cases hf : foo = q0
    · subst hf
      rw [alookup_amodify_self, h1]
      rfl
    · rw [alookup_amodify_ne _ _ _ _ hf]
      exact h1
  · exact h2

theorem noIndexNoBlob_ingest (E : ExternalFns) (cfg : Config)
    (fs : String → Option FileInfo) (now : Int) (gs : Option String)
    (st : EngineState) (path foo : String)
    (hne : path ≠ foo) (h : NoIndexNoBlob st foo) :
    NoIndexNoBlob (cache_ingest E cfg fs now gs st path).2 foo := by
  have hfoo : foo ≠ path := fun e => hne e.symm
  obtain ⟨h1, h2⟩ := h
  cases hfs : fs path with
  | none =>
    rw [cache_ingest_no_file E cfg fs now gs st path hfs]
    exact ⟨h1, h2⟩
  | some fi =>
    by_cases hsize : cfg.max_file_size_mb * 1024 * 1024 < fi.content.length
    · rw [cache_ingest_oversize E cfg fs now gs st path fi hfs hsize]
      exact ⟨h1, h2⟩
    · cases halo : alookup st.partitions
          (get_partition_for_path E.md5hex st.partitions.length path) with
      | none =>
        rw [cache_ingest_no_partition E cfg fs now gs st path fi hfs hsize halo]
        exact ⟨h1, h2⟩
      | some prows =>
        rw [cache_ingest_success E cfg fs now gs st path fi prows hfs hsize halo]
        constructor
        · dsimp only
          rw [alookup_aupsert_ne _ _ _ _ hfoo]
          exact h1
        · intro q hq
          dsimp only at hq
          rcases List.mem_cons.mp hq with hq1 | hq2
          · subst hq1
            dsimp only
            rw [alookup_aupsert_ne _ _ _ _ hfoo]
            exact h2 _ (alookup_mem halo)
          · exact h2 q (List.mem_of_mem_filter hq2)

theorem noIndexNoBlob_remove (st : EngineState) (q0 foo : String)
    (hne : q0 ≠ foo) (h : NoIndexNoBlob st foo) :
    ∀ s2, remove_from_cache st q0 = some s2 → NoIndexNoBlob s2 foo := by
  have hfoo : foo ≠ q0 := fun e => hne e.symm
  obtain ⟨h1, h2⟩ := h
  intro s2 hrm
  rw [remove_from_cache] at hrm
  cases hi : alookup st.index q0 with
  | none =>
    rw [hi] at hrm
    dsimp only at hrm
    injection hrm with hrm
    subst hrm
    exact ⟨h1, h2⟩
  | some entry =>
    rw [hi] at hrm
    dsimp only at hrm
    cases hpk : entry.partition_key with
    | none =>
      rw [hpk] at hrm
      simp at hrm
    | some pid =>
      rw [hpk] at hrm
      dsimp only at hrm
      cases halo : alookup st.partitions pid with
      | none =>
        rw [halo] at hrm
        simp at hrm
      | some prows =>
        rw [halo] at hrm
        dsimp only at hrm
        injection hrm with hrm
        subst hrm
        constructor
        · dsimp only
          rw [alookup_filter_ne _ _ _ hfoo]
          exact h1
        · intro q hq
          dsimp only at hq
          rcases List.mem_cons.mp hq with hq1 | hq2
          · subst hq1
            dsimp only
            exact alookup_filter_none _ (h2 _ (alookup_mem halo))
          · exact h2 q (List.mem_of_mem_filter hq2)

theorem noIndexNoBlob_cache_file (E : ExternalFns) (cfg : Config)
    (allowed : List String) (fs : String → Option FileInfo) (now : Int)
    (gs : Option String) (st : EngineState) (q0 foo : String)
    (hne : E.resolve q0 ≠ foo) (h : NoIndexNoBlob st foo) :
    NoIndexNoBlob (cache_file_enhanced E cfg allowed fs now gs st q0 true).2 foo := by
  by_cases hval : validate_path E.resolve allowed q0 = true
  · rw [cache_file_force_eq_ingest E cfg allowed fs now gs st q0 hval]
    exact noIndexNoBlob_ingest E cfg fs now gs st _ foo hne h
  · rw [cache_file_enhanced, if_pos (by simpa using hval)]
    exact h

/-- The removal path: under blob ownership it leaves no index row and no
blob, and when an entry was present it also clears the vulnerability rows
and both tier entries for the path. -/
theorem remove_from_cache_clears (st : EngineState) (foo : String)
    (hc : ConsistentBlob st foo) :
    ∀ s2, remove_from_cache st foo = some s2 →
      NoIndexNoBlob s2 foo ∧
      (∀ entry, alookup st.index foo = some entry →
        (∀ v ∈ s2.vulns, v.file_path ≠ foo) ∧
        alookup s2.memoryCache foo = none ∧
        alookup s2.ttlCache foo = none) := by
  intro s2 hrm
  rw [remove_from_cache] at hrm
  cases hi : alookup st.index foo with
  | none =>
    rw [hi] at hrm
    dsimp only at hrm
    injection hrm with hrm
    subst hrm
    refine ⟨⟨hi, ?_⟩, ?_⟩
    · intro q hq
      by_contra hb
      have h0 := hc q hq hb
      rw [hi] at h0
      simp at h0
    · intro entry he
      simp at he
  | some entry0 =>
    rw [hi] at hrm
    dsimp only at hrm
    cases hpk : entry0.partition_key with
    | none =>
      rw [hpk] at hrm
      simp at hrm
    | some pid =>
      rw [hpk] at hrm
      dsimp only at hrm
      cases halo : alookup st.partitions pid with
      | none =>
        rw [halo] at hrm
        simp at hrm
      | some prows =>
        rw [halo] at hrm
        dsimp only at hrm
        injection hrm with hrm
        subst hrm
        refine ⟨⟨?_, ?_⟩, ?_⟩
        · dsimp only
          exact alookup_filter_self _ _
        · intro q hq
          dsimp only at hq
          rcases List.mem_cons.mp hq with hq1 | hq2
          · subst hq1
            dsimp only
            exact alookup_filter_self _ _
          · by_contra hb
            have h0 := hc q (List.mem_of_mem_filter hq2) hb
            rw [hi] at h0
            simp only [Option.map_some', Option.some.injEq] at h0
            rw [hpk] at h0
            injection h0 with h0
            have hf := List.of_mem_filter hq2
            simp only [decide_eq_true_eq] at hf
            exact hf h0.symm
        · intro e2 he
          refine ⟨?_, ?_, ?_⟩
          · intro v hv
            dsimp only at hv
            have := List.of_mem_filter hv
            simpa using this
          · dsimp only
            exact alookup_filter_self _ _
          · dsimp only
            exact alookup_filter_self _ _

theorem update_from_git_ok_preserve (P : EngineState → Prop)
    (E : ExternalFns) (cfg : Config) (allowed : List String)
    (fs : String → Option FileInfo) (now : Int) (gs : Option String) :
    ∀ (l : List GitChange),
      (∀ s c, c ∈ l → P s →
        ∀ s2, gitStep E cfg allowed fs now gs s c = some s2 → P s2) →
      ∀ s r, P s →
        update_from_git E cfg allowed fs now gs s l = Except.ok r → P r := by
  intro l
  induction l with
  | nil =>
    intro _ s r hs hrun
    rw [update_from_git] at hrun
    injection hrun with hrun
    subst hrun
    exact hs
  | cons c t ih =>
    intro hstep s r hs hrun
    rw [update_from_git] at hrun
    cases hg : gitStep E cfg allowed fs now gs s c with
    | none =>
      rw [hg] at hrun
      simp at hrun
    | some s2 =>
      rw [hg] at hrun
      dsimp only at hrun
      exact ih (fun a b hb => hstep a b (List.mem_cons_of_mem _ hb)) s2 r
        (hstep s c (List.mem_cons_self _ _) hs s2 hg) hrun

theorem gitStep_consistentBlob (E : ExternalFns) (cfg : Config)
    (allowed : List String) (fs : String → Option FileInfo) (now : Int)
    (gs : Option String) (s : EngineState) (c : GitChange) (foo : String)
    (hne1 : c.file_path ≠ foo) (hne2 : E.resolve c.file_path ≠ foo)
    (h : ConsistentBlob s foo) :
    ∀ s2, gitStep E cfg allowed fs now gs s c = some s2 → ConsistentBlob s2 foo := by
  intro s2 hg
  rw [gitStep] at hg
  by_cases hd : c.change_type = "deleted"
  · rw [if_pos hd] at hg
    exact consistentBlob_remove s _ foo hne1 h s2 hg
  · rw [if_neg hd] at hg
    injection hg with hg
    subst hg
    exact consistentBlob_cache_file E cfg allowed fs now gs s _ foo hne2 h

theorem gitStep_noIndexNoBlob (E : ExternalFns) (cfg : Config)
    (allowed : List String) (fs : String → Option FileInfo) (now : Int)
    (gs : Option String) (s : EngineState) (c : GitChange) (foo : String)
    (hne1 : c.file_path ≠ foo) (hne2 : E.resolve c.file_path ≠ foo)
    (h : NoIndexNoBlob s foo) :
    ∀ s2, gitStep E cfg allowed fs now gs s c = some s2 → NoIndexNoBlob s2 foo := by
  intro s2 hg
  rw [gitStep] at hg
  by_cases hd : c.change_type = "deleted"
  · rw [if_pos hd] at hg
    exact noIndexNoBlob_remove s _ foo hne1 h s2 hg
  · rw [if_neg hd] at hg
    injection hg with hg
    subst hg
    exact noIndexNoBlob_cache_file E cfg allowed fs now gs s _ foo hne2 h

/-- A completed sync whose change list deletes `foo`, with no other change
naming `foo`, leaves no index row and no blob for `foo`. -/
theorem update_from_git_delete_run (E : ExternalFns) (cfg : Config)
    (allowed : List String) (fs : String → Option FileInfo) (now : Int)
    (gs : Option String) (foo : String) (l2 : List GitChange)
    (hl2 : ∀ c ∈ l2, c.file_path ≠ foo ∧ E.resolve c.file_path ≠ foo) :
    ∀ (l1 : List GitChange),
      (∀ c ∈ l1, c.file_path ≠ foo ∧ E.resolve c.file_path ≠ foo) →
      ∀ (st final : EngineState), ConsistentBlob st foo →
        update_from_git E cfg allowed fs now gs st
          (l1 ++ { file_path := foo, change_type := "deleted" } :: l2) =
          Except.ok final →
        NoIndexNoBlob final foo := by
  intro l1
  induction l1 with
  | nil =>
    intro _ st final hc hrun
    rw [List.nil_append, update_from_git] at hrun
    cases hg : gitStep E cfg allowed fs now gs st
        { file_path := foo, change_type := "deleted" } with
    | none =>
      rw [hg] at hrun
      simp at hrun
    | some s2 =>
      rw [hg] at hrun
      dsimp only at hrun
      rw [gitStep, if_pos rfl] at hg
      have h2 := remove_from_cache_clears st foo hc s2 hg
      exact update_from_git_ok_preserve (fun s => NoIndexNoBlob s foo) E cfg allowed fs
        now gs l2
        (fun s c hcm hp s3 hg3 =>
          gitStep_noIndexNoBlob E cfg allowed fs now gs s c foo
            (hl2 c hcm).1 (hl2 c hcm).2 hp s3 hg3)
        s2 final h2.1 hrun
  | cons c t ih =>
    intro hl1 st final hc hrun
    rw [List.cons_append, update_from_git] at hrun
    cases hg : gitStep E cfg allowed fs now gs st c with
    | none =>
      rw [hg] at hrun
      simp at hrun
    | some s2 =>
      rw [hg] at hrun
      dsimp only at hrun
      exact ih (fun c2 hc2 => hl1 c2 (List.mem_cons_of_mem _ hc2)) s2 final
        (gitStep_consistentBlob E cfg allowed fs now gs st c foo
          (hl1 c (List.mem_cons_self _ _)).1 (hl1 c (List.mem_cons_self _ _)).2 hc s2 hg)
        hrun

/-- C6: a version-control sync dispatches each deleted change to the
removal path and every other change kind to a forced re-ingestion; a
removal that does not raise deletes the path's partition blob, index row
and vulnerability rows and evicts it from both in-memory tiers (when the
entry's partition key is missing or dead the source raises instead, which
aborts the sync with every row intact — modelled by the `Except.error`
outcome); hence after a sync that ran to completion and whose change list
deletes `foo` (with no other change naming `foo`), `foo` has no index entry
and no partition blob. -/
theorem update_from_git_deleted_change_removal
    (E : ExternalFns) (cfg : Config) (allowed : List String)
    (fs : String → Option FileInfo) (now : Int) (gs : Option String)
    (st : EngineState) (foo : String) (l1 l2 : List GitChange)
    (hc : ConsistentBlob st foo)
    (hl1 : ∀ c ∈ l1, c.file_path ≠ foo ∧ E.resolve c.file_path ≠ foo)
    (hl2 : ∀ c ∈ l2, c.file_path ≠ foo ∧ E.resolve c.file_path ≠ foo) :
    (∀ (s : EngineState) (c : GitChange), c.change_type = "deleted" →
      gitStep E cfg allowed fs now gs s c = remove_from_cache s c.file_path) ∧
    (∀ (s : EngineState) (c : GitChange), c.change_type ≠ "deleted" →
      gitStep E cfg allowed fs now gs s c =
        some (cache_file_enhanced E cfg allowed fs now gs s c.file_path true).2) ∧
    (∀ entry, alookup st.index foo = some entry →
      ∀ s2, remove_from_cache st foo = some s2 →
        alookup s2.index foo = none ∧
        (∀ q ∈ s2.partitions, alookup q.2 foo = none) ∧
        (∀ v ∈ s2.vulns, v.file_path ≠ foo) ∧
        alookup s2.memoryCache foo = none ∧
        alookup s2.ttlCache foo = none) ∧
    ∀ final, update_from_git E cfg allowed fs now gs st
        (l1 ++ { file_path := foo, change_type := "deleted" } :: l2) =
        Except.ok final →
      alookup final.index foo = none ∧
      ∀ q ∈ final.partitions, alookup q.2 foo = none := by
  refine ⟨?_, ?_, ?_, ?_⟩
  · intro s c hd
    rw [gitStep, if_pos hd]
  · intro s c hd
    rw [gitStep, if_neg hd]
  · intro entry he s2 hrm
    have h2 := remove_from_cache_clears st foo hc s2 hrm
    exact ⟨h2.1.1, h2.1.2, (h2.2 entry he).1, (h2.2 entry he).2.1, (h2.2 entry he).2.2⟩
  · intro final hrun
    have hfin := update_from_git_delete_run E cfg allowed fs now gs foo l2 hl2 l1 hl1
      st final hc hrun
    exact ⟨hfin.1, hfin.2⟩

/-- Witness for C6: deleting the one cached file of a concrete engine is a
sync that completes and leaves no index entry and no partition blob. -/
theorem update_from_git_deleted_change_removal_witness :
    ConsistentBlob cStateFoo "/tmp/a.txt" ∧
    ∃ final : EngineState,
      update_from_git cExt {} ["/tmp"] cFs 2 none cStateFoo
        [{ file_path := "/tmp/a.txt", change_type := "deleted" }] =
        Except.ok final ∧
      alookup final.index "/tmp/a.txt" = none ∧
      ∀ q ∈ final.partitions, alookup q.2 "/tmp/a.txt" = none := by
  have hcb : ConsistentBlob cStateFoo "/tmp/a.txt" := by decide
  have h := update_from_git_deleted_change_removal cExt {} ["/tmp"] cFs 2 none cStateFoo
    "/tmp/a.txt" [] [] hcb (by simp) (by simp)
  have hfin : update_from_git cExt {} ["/tmp"] cFs 2 none cStateFoo
      [{ file_path := "/tmp/a.txt", change_type := "deleted" }] =
      Except.ok ((remove_from_cache cStateFoo "/tmp/a.txt").getD cState0) := by
    rfl
  exact ⟨hcb, (remove_from_cache cStateFoo "/tmp/a.txt").getD cState0, hfin,
    h.2.2.2 _ hfin⟩

end ClaudeCache
